import Mathlib

/-!
Shallow embedding of the greedy schedule generator in
`src/api/services/scheduler.py` (class `ScheduleGenerator`), together with
proofs checking the natural-language specification against it.

Modelling conventions:
* Python `float` values (hourly rates, costs, demand, confidence) are
  modelled as `ℚ`; arithmetic on them in the source is exact on the values
  exercised here.
* Python `datetime.time` values are modelled as minutes since midnight
  (`ℕ`); `time(h, 0)` becomes `h * 60` and the comparisons between times
  are the numeric comparisons, as in Python.
* Python `datetime.date` values are modelled as proleptic-Gregorian ordinal
  day numbers (`ℤ`), so that `date.weekday()` (Monday = 0) is
  `(d + 6) % 7` and `timedelta` arithmetic is integer arithmetic.
* Python dictionaries are modelled as association lists in insertion order;
  dictionary iteration is list iteration.
* The ambient effects of the generator (`uuid.uuid4()` and `date.today()`)
  are made explicit: a uuid supply `u : ℕ → String` with a call counter in
  the generator state, and a `today : ℤ` parameter.
* Message strings built with f-string number formatting in the source are
  built with `toString` of the same numbers here (the decimal formatting
  itself is abstracted; no claim depends on it).
-/

namespace ShiftMind

/-- `Employee` dataclass from `scheduler.py`. -/
structure Employee where
  id : String
  first_name : String
  last_name : String
  hourly_rate : ℚ
  skills : List String
deriving DecidableEq, Repr

/-- `AvailabilitySlot` dataclass from `scheduler.py`; times are minutes
since midnight. -/
structure AvailabilitySlot where
  employee_id : String
  day_of_week : ℕ
  start_time : ℕ
  end_time : ℕ
  is_available : Bool
deriving DecidableEq, Repr

/-- `Shift` dataclass from `scheduler.py`; `date` is an ordinal day
number, times are minutes since midnight. -/
structure Shift where
  id : String
  employee_id : String
  date : ℤ
  start_time : ℕ
  end_time : ℕ
  break_minutes : ℤ
  hourly_rate : ℚ
  total_cost : ℚ
deriving DecidableEq, Repr

/-- A value stored in an alert's `details` dictionary. -/
inductive DVal where
  | i (n : ℤ)
  | q (x : ℚ)
  | s (v : String)
deriving DecidableEq, Repr

/-- `Alert` dataclass from `scheduler.py`; `details` is the `Dict`
payload in insertion order. -/
structure Alert where
  type : String
  severity : String
  message : String
  details : List (String × DVal)
deriving DecidableEq, Repr

/-- The mutable fields of a `ScheduleGenerator` instance that the
operations thread through (`current_cost`, `alerts`), plus the position in
the ambient uuid supply reached so far (models successive calls of
`uuid.uuid4()`). -/
structure GenM where
  current_cost : ℚ
  alerts : List Alert
  uuidCounter : ℕ
deriving DecidableEq, Repr

/-! ### Gap-tolerant hour merging (`merge_hours_to_shifts`, inner loop) -/

/-- One gap-filling step of `merge_hours_to_shifts`: for the next assigned
hour `h`, Python runs
`for fill_hour in range(current_range[-1] + 1, hour + 1)` over the range
computed up front, appending each `fill_hour` not already present. -/
def fillGap (cur : List ℕ) (h : ℕ) : List ℕ :=
  (List.range' (cur.getLast?.getD 0 + 1) (h + 1 - (cur.getLast?.getD 0 + 1))).foldl
    (fun c fh => if fh ∈ c then c else c ++ [fh]) cur

/-- The loop `for hour in day_hours[1:]` of `merge_hours_to_shifts`:
extend the current range when `hour <= current_range[-1] + 4`, otherwise
close it and start a new one; afterwards the final range is appended when
nonempty. -/
def mergeLoop : List ℕ → List (List ℕ) → List ℕ → List (List ℕ)
  | [], ranges, cur => if cur = [] then ranges else ranges ++ [cur]
  | h :: t, ranges, cur =>
      if h ≤ cur.getLast?.getD 0 + 4 then
        mergeLoop t ranges (fillGap cur h)
      else
        mergeLoop t (ranges ++ [cur]) [h]

/-- `merge_hours_to_shifts`' conversion of one day's sorted hour list into
continuous ranges (`continuous_ranges` in the source). -/
def mergeRanges (day_hours : List ℕ) : List (List ℕ) :=
  match day_hours with
  | [] => []
  | h :: t => mergeLoop t [] [h]

/-! ### Demand estimation (`demand_to_staff`) -/

/-- `peak_hours = list(range(12, 15)) + list(range(18, 22))`. -/
def peak_hours : List ℕ := List.range' 12 3 ++ List.range' 18 4

/-- The dictionary key `f"day_{day}_hour_{hour}"`. -/
def dayHourKey (day hour : ℕ) : String :=
  "day_" ++ toString day ++ "_hour_" ++ toString hour

/-- Lookup in a string-keyed Python dictionary modelled as an association
list. -/
def lookupA {β : Type} (xs : List (String × β)) (k : String) : Option β :=
  (xs.find? (fun p => decide (p.1 = k))).map (fun p => p.2)

/-- Python `int()` applied to a rational: truncation toward zero. -/
def truncQ (q : ℚ) : ℤ := if 0 ≤ q then ⌊q⌋ else ⌈q⌉

/-- `ScheduleGenerator.demand_to_staff`.  `forecast_data = none` models
Python `None`; an empty dictionary is falsy in Python, hence the emptiness
test on `some data`. -/
def demand_to_staff (min_staff_per_hour : ℕ) (hour day : ℕ)
    (forecast_data : Option (List (String × ℚ))) : ℕ :=
  let defaultPattern : ℕ :=
    if hour ∈ peak_hours then max 2 min_staff_per_hour
    else if 6 ≤ hour ∧ hour ≤ 23 then max 1 min_staff_per_hour
    else 0
  match forecast_data with
  | some data =>
      if data ≠ [] then
        match lookupA data (dayHourKey day hour) with
        | some v => (max 1 (truncQ (v / 10))).toNat
        | none => defaultPattern
      else defaultPattern
  | none => defaultPattern

/-! ### Greedy employee selection (`pick_employees_greedy`) -/

/-- The slot filter of the inner loop:
`slot.employee_id == emp.id and slot.day_of_week == target_day and slot.is_available`. -/
def slotMatches (emp : Employee) (target_day : ℕ) (s : AvailabilitySlot) : Bool :=
  decide (s.employee_id = emp.id) && decide (s.day_of_week = target_day) && s.is_available

/-- The window test of `pick_employees_greedy` on the first matching slot,
with `target_time = time(target_hour, 0)`: the same-day test when
`start_time <= end_time`, the overnight wraparound test otherwise. -/
def hourFits (slot : AvailabilitySlot) (target_hour : ℕ) : Bool :=
  let target_time := target_hour * 60
  if slot.start_time ≤ slot.end_time then
    decide (slot.start_time ≤ target_time) && decide (target_time ≤ slot.end_time)
  else
    decide (slot.start_time ≤ target_time) || decide (target_time ≤ slot.end_time)

/-- The `suitable_employees` list built by `pick_employees_greedy`: for
each employee in input order, the first slot matching employee + day +
available is examined (the loop breaks on it) and `(emp, emp.hourly_rate)`
is appended when the target hour fits its window. -/
def suitableEmployees (available_employees : List Employee)
    (availability_slots : List AvailabilitySlot) (target_day target_hour : ℕ) :
    List (Employee × ℚ) :=
  available_employees.foldl
    (fun acc emp =>
      match availability_slots.find? (slotMatches emp target_day) with
      | some slot =>
          if hourFits slot target_hour then acc ++ [(emp, emp.hourly_rate)] else acc
      | none => acc) []

/-- `key=lambda x: x[1]` of the stable Python sort, as a Boolean order. -/
def pairLE (a b : Employee × ℚ) : Bool := decide (a.2 ≤ b.2)

/-- The `insufficient_staff` alert of `pick_employees_greedy`. -/
def insufficientStaffAlert (target_day target_hour selected_count required_count : ℕ) :
    Alert where
  type := "insufficient_staff"
  severity := "warning"
  message := "רק " ++ toString selected_count ++ " עובדים זמינים מתוך " ++
    toString required_count ++ " נדרשים"
  details := [("day", DVal.i target_day), ("hour", DVal.i target_hour),
    ("available", DVal.i selected_count), ("required", DVal.i required_count)]

/-- `ScheduleGenerator.pick_employees_greedy`.  Python's `list.sort` is
stable; it is modelled by the stable `List.mergeSort`. -/
def pick_employees_greedy (g : GenM) (available_employees : List Employee)
    (availability_slots : List AvailabilitySlot)
    (required_count target_day target_hour : ℕ) : List Employee × GenM :=
  let suitable :=
    suitableEmployees available_employees availability_slots target_day target_hour
  let sorted := suitable.mergeSort pairLE
  let selected_count := min required_count sorted.length
  let g' :=
    if selected_count < required_count then
      { g with alerts := g.alerts ++
        [insufficientStaffAlert target_day target_hour selected_count required_count] }
    else g
  ((sorted.take selected_count).map (fun p => p.1), g')

/-! ### Shift construction (`_create_shift`, `_get_date_for_day`) -/

/-- Python `date.weekday()` (Monday = 0) on an ordinal day number: ordinal
day 1 is a Monday. -/
def pyWeekday (d : ℤ) : ℤ := (d + 6) % 7

/-- `ScheduleGenerator._get_date_for_day`, with the ambient `date.today()`
passed explicitly. -/
def get_date_for_day (today : ℤ) (day_of_week : ℕ) : ℤ :=
  let days_since_sunday := (pyWeekday today + 1) % 7
  today - days_since_sunday + day_of_week

/-- The `budget_exceeded` alert of `_create_shift`. -/
def budgetExceededAlert (current_cost total_cost weekly_budget : ℚ) : Alert where
  type := "budget_exceeded"
  severity := "critical"
  message := "תקציב חרג: ₪" ++ toString (current_cost + total_cost) ++ " מתוך ₪" ++
    toString weekly_budget
  details := [("current_cost", DVal.q current_cost), ("shift_cost", DVal.q total_cost),
    ("budget", DVal.q weekly_budget)]

/-- `ScheduleGenerator._create_shift`, with the uuid supply `u` and
`today` explicit; `u g.uuidCounter` models the `uuid.uuid4()` call. -/
def create_shift (u : ℕ → String) (today : ℤ) (weekly_budget : ℚ) (g : GenM)
    (emp_id : String) (day : ℕ) (start_hour : ℕ) (hours : List ℕ)
    (employee : Employee) : Shift × GenM :=
  let shift_date := get_date_for_day today day
  let start_time := start_hour * 60
  let end_hour := hours.getLast?.getD 0 + 1
  let end_time := if 24 ≤ end_hour then (end_hour - 24) * 60 else end_hour * 60
  let total_hours : ℕ := hours.length
  let break_minutes : ℤ := max 0 (((total_hours : ℤ) - 4) * 15)
  let work_minutes : ℤ := (total_hours : ℤ) * 60 - break_minutes
  let total_cost : ℚ := ((work_minutes : ℚ) / 60) * employee.hourly_rate
  let g1 :=
    if weekly_budget < g.current_cost + total_cost then
      { g with alerts := g.alerts ++
        [budgetExceededAlert g.current_cost total_cost weekly_budget] }
    else g
  let g2 := { g1 with current_cost := g1.current_cost + total_cost,
                      uuidCounter := g1.uuidCounter + 1 }
  ({ id := u g.uuidCounter, employee_id := emp_id, date := shift_date,
     start_time := start_time, end_time := end_time, break_minutes := break_minutes,
     hourly_rate := employee.hourly_rate, total_cost := total_cost }, g2)

/-! ### Hour-to-shift merging (`merge_hours_to_shifts`) -/

/-- `employee_dict = {emp.id: emp for emp in employees}` followed by
`.get`: a Python dict comprehension keeps the last value for a duplicated
key. -/
def empLookup (employees : List Employee) (eid : String) : Option Employee :=
  employees.foldl (fun acc e => if e.id = eid then some e else acc) none

/-- One step of building `hours_by_day`: append the hour to the day's
list when the day key is present, otherwise insert the day at the end
(Python dict insertion order). -/
def addToDay (acc : List (ℕ × List ℕ)) (day hour : ℕ) : List (ℕ × List ℕ) :=
  match acc with
  | [] => [(day, [hour])]
  | (d, hs) :: rest =>
      if d = day then (d, hs ++ [hour]) :: rest else (d, hs) :: addToDay rest day hour

/-- `hours_by_day` of `merge_hours_to_shifts`. -/
def groupByDay (hours : List (ℕ × ℕ)) : List (ℕ × List ℕ) :=
  hours.foldl (fun acc p => addToDay acc p.1 p.2) []

/-- `day_hours.sort()`'s order. -/
def natLE (a b : ℕ) : Bool := decide (a ≤ b)

/-- The `for hours_range in continuous_ranges` loop of
`merge_hours_to_shifts`: each range of length at least 1 yields a shift. -/
def processRanges (u : ℕ → String) (today : ℤ) (weekly_budget : ℚ)
    (emp_id : String) (day : ℕ) (employee : Employee)
    (ranges : List (List ℕ)) (acc : List Shift × GenM) : List Shift × GenM :=
  ranges.foldl
    (fun acc2 hours_range =>
      if 1 ≤ hours_range.length then
        let sg := create_shift u today weekly_budget acc2.2 emp_id day
          (hours_range.headD 0) hours_range employee
        (acc2.1 ++ [sg.1], sg.2)
      else acc2) acc

/-- The body of the `for emp_id, hours in employee_assignments.items()`
loop: skip empty hour lists and unknown employee ids, otherwise group by
day, sort each day's hours (the source sorts the same list twice, which is
the same as sorting once), build the continuous ranges and create the
shifts. -/
def processEntry (u : ℕ → String) (today : ℤ) (weekly_budget : ℚ)
    (employees : List Employee) (acc : List Shift × GenM)
    (entry : String × List (ℕ × ℕ)) : List Shift × GenM :=
  if entry.2 = [] then acc
  else
    match empLookup employees entry.1 with
    | none => acc
    | some employee =>
        (groupByDay entry.2).foldl
          (fun acc2 dayEntry =>
            let day_hours := dayEntry.2.mergeSort natLE
            if day_hours = [] then acc2
            else processRanges u today weekly_budget entry.1 dayEntry.1 employee
              (mergeRanges day_hours) acc2) acc

/-- `ScheduleGenerator.merge_hours_to_shifts`; the assignment dictionary
is an association list in insertion order. -/
def merge_hours_to_shifts (u : ℕ → String) (today : ℤ) (weekly_budget : ℚ)
    (g : GenM) (employee_assignments : List (String × List (ℕ × ℕ)))
    (employees : List Employee) : List Shift × GenM :=
  employee_assignments.foldl (processEntry u today weekly_budget employees) ([], g)

/-! ### Orchestration (`generate_schedule`) -/

/-- `employee_assignments = {emp.id: [] for emp in employees}` (duplicate
ids keep the first insertion position). -/
def initAssignments (employees : List Employee) : List (String × List (ℕ × ℕ)) :=
  employees.foldl
    (fun acc e =>
      if acc.any (fun p => decide (p.1 = e.id)) then acc else acc ++ [(e.id, [])]) []

/-- `employee_assignments[emp.id].append((day, hour))`. -/
def appendAssign (assignments : List (String × List (ℕ × ℕ))) (eid : String)
    (p : ℕ × ℕ) : List (String × List (ℕ × ℕ)) :=
  assignments.map (fun entry => if entry.1 = eid then (entry.1, entry.2 ++ [p]) else entry)

/-- The per-day/per-hour assignment loop of `generate_schedule`. -/
def assignmentPhase (min_staff_per_hour : ℕ) (employees : List Employee)
    (availability : List AvailabilitySlot) (forecast_data : Option (List (String × ℚ)))
    (start : List (String × List (ℕ × ℕ)) × GenM) :
    List (String × List (ℕ × ℕ)) × GenM :=
  (List.range 7).foldl
    (fun st day =>
      (List.range 24).foldl
        (fun st2 hour =>
          let required_staff := demand_to_staff min_staff_per_hour hour day forecast_data
          if required_staff = 0 then st2
          else
            let sel := pick_employees_greedy st2.2 employees availability
              required_staff day hour
            (sel.1.foldl (fun a e => appendAssign a e.id (day, hour)) st2.1, sel.2))
        st)
    start

/-- `ScheduleGenerator.generate_schedule`: resets `current_cost` and
`alerts` (discarding whatever the incoming state `g` held), runs the
assignment phase over the 168 weekly slots, merges into shifts and returns
`(shifts, self.alerts)`.  The second component is the generator state left
behind on `self`, so that a second invocation on the same generator object
can be modelled. -/
def generate_schedule (u : ℕ → String) (today : ℤ) (weekly_budget : ℚ)
    (min_staff_per_hour : ℕ) (g : GenM) (employees : List Employee)
    (availability : List AvailabilitySlot)
    (forecast_data : Option (List (String × ℚ))) :
    (List Shift × List Alert) × GenM :=
  let g0 : GenM := { g with current_cost := 0, alerts := [] }
  let phase1 := assignmentPhase min_staff_per_hour employees availability forecast_data
    (initAssignments employees, g0)
  let res := merge_hours_to_shifts u today weekly_budget phase1.2 phase1.1 employees
  ((res.1, res.2.alerts), res.2)

/-! ### Forecast loading and forecast-driven staffing
(`load_forecast`, `demand_to_staff_with_forecast`) -/

/-- An hour's entry `{"demand": d, "confidence": c}` in the forecast
cache. -/
abbrev HourData := ℚ × ℚ

/-- `self.forecast_cache[week]`: date string to hour map. -/
abbrev WeekData := List (String × List (ℕ × HourData))

/-- `self.forecast_cache`. -/
abbrev ForecastCache := List (String × WeekData)

/-- A row returned by the `forecast_cache` query of `load_forecast`;
`forecast_date` is already the `"%Y-%m-%d"` string. -/
structure ForecastRow where
  forecast_date : String
  hour_of_day : ℕ
  forecasted_demand : ℚ
  confidence_score : ℚ
deriving DecidableEq, Repr

/-- Python `round()` to an integer: round half to even. -/
def roundHalfEven (q : ℚ) : ℤ :=
  let f := ⌊q⌋
  let r := q - f
  if r < 1 / 2 then f
  else if 1 / 2 < r then f + 1
  else if f % 2 = 0 then f else f + 1

/-- Python `round(q, 3)`. -/
def pyRound3 (q : ℚ) : ℚ := (roundHalfEven (q * 1000) : ℚ) / 1000

/-- `dict[hour_of_day] = {...}`: overwrite the hour's entry or insert it
at the end. -/
def setHour (hs : List (ℕ × HourData)) (hour : ℕ) (hd : HourData) :
    List (ℕ × HourData) :=
  if hs.any (fun p => decide (p.1 = hour)) then
    hs.map (fun p => if p.1 = hour then (p.1, hd) else p)
  else hs ++ [(hour, hd)]

/-- The per-row cache update of `load_forecast`: create the day's map if
absent, then set the hour's entry. -/
def setDay (wd : WeekData) (day_key : String) (hour : ℕ) (hd : HourData) : WeekData :=
  if wd.any (fun p => decide (p.1 = day_key)) then
    wd.map (fun p => if p.1 = day_key then (p.1, setHour p.2 hour hd) else p)
  else wd ++ [(day_key, setHour [] hour hd)]

/-- The `for row in results` loop of `load_forecast`. -/
def buildWeekData (rows : List ForecastRow) : WeekData :=
  rows.foldl
    (fun wd row =>
      setDay wd row.forecast_date row.hour_of_day
        (row.forecasted_demand, row.confidence_score)) []

/-- `self.forecast_cache[week] = ...`. -/
def setWeek (cache : ForecastCache) (week : String) (wd : WeekData) : ForecastCache :=
  if cache.any (fun p => decide (p.1 = week)) then
    cache.map (fun p => if p.1 = week then (p.1, wd) else p)
  else cache ++ [(week, wd)]

/-- The `missing_forecast` alert of `load_forecast`. -/
def missingForecastAlert (week business_id : String) : Alert where
  type := "missing_forecast"
  severity := "warning"
  message := "לא נמצאה תחזית לשבוע " ++ week
  details := [("week", DVal.s week), ("business_id", DVal.s business_id)]

/-- The `forecast_loaded` alert of `load_forecast`. -/
def forecastLoadedAlert (week : String) (forecast_count : ℕ) (avg : ℚ) : Alert where
  type := "forecast_loaded"
  severity := "info"
  message := "תחזית נטענה בהצלחה לשבוע " ++ week
  details := [("forecasts_count", DVal.i forecast_count),
    ("average_confidence", DVal.q (pyRound3 avg)), ("week", DVal.s week)]

/-- The `forecast_error` alert of `load_forecast`. -/
def forecastErrorAlert (week err : String) : Alert where
  type := "forecast_error"
  severity := "warning"
  message := "שגיאה בטעינת תחזית: " ++ err
  details := [("week", DVal.s week), ("error", DVal.s err)]

/-- `ScheduleGenerator.load_forecast`, with the database interaction made
explicit: `dbResult` is the fetched row list, or the message of the raised
exception. -/
def load_forecast (g : GenM) (cache : ForecastCache) (business_id week : String)
    (dbResult : Except String (List ForecastRow)) : Bool × GenM × ForecastCache :=
  match dbResult with
  | Except.error e =>
      (false, { g with alerts := g.alerts ++ [forecastErrorAlert week e] }, cache)
  | Except.ok rows =>
      if rows = [] then
        (false, { g with alerts := g.alerts ++ [missingForecastAlert week business_id] },
          cache)
      else
        let avg := (rows.foldl (fun s r => s + r.confidence_score) (0 : ℚ)) / rows.length
        (true,
          { g with alerts := g.alerts ++ [forecastLoadedAlert week rows.length avg] },
          setWeek cache week (buildWeekData rows))

/-- The conversion settings of `demand_to_staff_with_forecast` after
merging the caller's `settings` dict into the defaults. -/
structure ConvSettings where
  demand_per_staff : ℚ
  min_staff_per_hour : ℤ
  max_staff_per_hour : ℤ
  confidence_threshold : ℚ
deriving DecidableEq, Repr

/-- The `default_settings` dict of `demand_to_staff_with_forecast`. -/
def default_settings : ConvSettings where
  demand_per_staff := 15
  min_staff_per_hour := 1
  max_staff_per_hour := 5
  confidence_threshold := 7 / 10

/-- A caller-supplied `settings` dict: each of the known keys may be
present or absent. -/
structure ConvSettingsPatch where
  demand_per_staff : Option ℚ
  min_staff_per_hour : Option ℤ
  max_staff_per_hour : Option ℤ
  confidence_threshold : Option ℚ
deriving DecidableEq, Repr

/-- `default_settings.update(settings)` for `settings` present or
absent. -/
def mergedSettings (settings : Option ConvSettingsPatch) : ConvSettings :=
  match settings with
  | none => default_settings
  | some p =>
      { demand_per_staff := p.demand_per_staff.getD default_settings.demand_per_staff
        min_staff_per_hour :=
          p.min_staff_per_hour.getD default_settings.min_staff_per_hour
        max_staff_per_hour :=
          p.max_staff_per_hour.getD default_settings.max_staff_per_hour
        confidence_threshold :=
          p.confidence_threshold.getD default_settings.confidence_threshold }

/-- Day of week (Sunday = 0) of a Gregorian date, by Sakamoto's method. -/
def sakamoto (y m d : ℕ) : ℕ :=
  let t : List ℕ := [0, 3, 2, 5, 0, 3, 5, 1, 4, 6, 2, 4]
  let yy := if m < 3 then y - 1 else y
  (yy + yy / 4 - yy / 100 + yy / 400 + t.getD (m - 1) 0 + d) % 7

/-- `datetime.strptime(target_date, "%Y-%m-%d").weekday()` (Monday = 0). -/
def pyWeekdayOfDateStr (s : String) : ℕ :=
  match s.splitOn ("-") with
  | [ys, ms, ds] => (sakamoto (ys.toNat?.getD 0) (ms.toNat?.getD 0) (ds.toNat?.getD 0) + 6) % 7
  | _ => 0

/-- The week-search loop of `demand_to_staff_with_forecast`: the first
cached week whose data contains `target_date`. -/
def findWeek (cache : ForecastCache) (target_date : String) : Option String :=
  (cache.find? (fun wp => (lookupA wp.2 target_date).isSome)).map (fun wp => wp.1)

/-- `.get(hour)` on the day's hour map. -/
def lookupHour (hs : List (ℕ × HourData)) (h : ℕ) : Option HourData :=
  (hs.find? (fun p => decide (p.1 = h))).map (fun p => p.2)

/-- The `low_confidence_forecast` alert of
`demand_to_staff_with_forecast`. -/
def lowConfidenceAlert (target_date : String) (hour : ℕ) (confidence : ℚ) : Alert where
  type := "low_confidence_forecast"
  severity := "warning"
  message := "ביטחון נמוך בתחזית (" ++ toString confidence ++ ") עבור " ++
    target_date ++ " שעה " ++ toString hour
  details := [("date", DVal.s target_date), ("hour", DVal.i hour),
    ("confidence", DVal.q confidence)]

/-- `ScheduleGenerator.demand_to_staff_with_forecast`.  `min_staff_gen` is
the generator's own `min_staff_per_hour` field, used by the fallback call
to `demand_to_staff`; the `if week` truthiness test makes an empty week
string falsy. -/
def demand_to_staff_with_forecast (min_staff_gen : ℕ) (g : GenM)
    (cache : ForecastCache) (target_date : String) (hour : ℕ)
    (settings : Option ConvSettingsPatch) : ℤ × GenM :=
  let s := mergedSettings settings
  let fallbackVal : ℤ :=
    (demand_to_staff min_staff_gen hour (pyWeekdayOfDateStr target_date) none : ℤ)
  match findWeek cache target_date with
  | some w =>
      if w = "" then (fallbackVal, g)
      else
        match (lookupA cache w).bind (fun wd => lookupA wd target_date) with
        | some hs =>
            match lookupHour hs hour with
            | some hd =>
                if s.confidence_threshold ≤ hd.2 then
                  (min s.max_staff_per_hour
                    (max s.min_staff_per_hour (truncQ (hd.1 / s.demand_per_staff))), g)
                else
                  (fallbackVal,
                    { g with alerts := g.alerts ++
                      [lowConfidenceAlert target_date hour hd.2] })
            | none => (fallbackVal, g)
        | none => (fallbackVal, g)
  | none => (fallbackVal, g)

/-- The spec's formula for the forecast-driven conversion, following the
spec's words: required staff =
`clamp(round(demand / demand_per_staff), min_staff_per_hour,
max_staff_per_hour)` with rounding to the nearest integer.  Stated for
comparison with the code's `demand_to_staff_with_forecast`, which
truncates the ratio instead of rounding it. -/
def requiredStaffSpecRound (demand : ℚ) (s : ConvSettings) : ℤ :=
  min s.max_staff_per_hour (max s.min_staff_per_hour (round (demand / s.demand_per_staff)))

/-- The fields of a shift other than the uuid-generated `id`. -/
structure ShiftData where
  employee_id : String
  date : ℤ
  start_time : ℕ
  end_time : ℕ
  break_minutes : ℤ
  hourly_rate : ℚ
  total_cost : ℚ
deriving DecidableEq, Repr

/-- All fields of a shift except the uuid-generated `id`. -/
def stripId (s : Shift) : ShiftData :=
  ⟨s.employee_id, s.date, s.start_time, s.end_time, s.break_minutes,
    s.hourly_rate, s.total_cost⟩

/-- The break/cost invariant of a produced shift: for some block length
`n ≥ 1`, `break_minutes = max(0, (n - 4) * 15)` and
`total_cost = (n*60 - break_minutes)/60 * hourly_rate`. -/
def shiftInvariant (s : Shift) : Prop :=
  ∃ n : ℕ, 1 ≤ n ∧ s.break_minutes = max 0 (((n : ℤ) - 4) * 15) ∧
    s.total_cost = (((n : ℤ) * 60 - s.break_minutes : ℤ) : ℚ) / 60 * s.hourly_rate

/-! ### Concrete fixtures used by the example conjuncts and witnesses -/

/-- A fresh generator state. -/
def gen0 : GenM := ⟨0, [], 0⟩

/-- An injective ambient uuid stream. -/
def uuidA : ℕ → String := fun n => "uuid-" ++ toString n

/-- An employee with hourly rate 20. -/
def empCostly : Employee := ⟨"e-costly", "A", "B", 20, []⟩

/-- An employee with hourly rate 10. -/
def empCheap : Employee := ⟨"e-cheap", "C", "D", 10, []⟩

/-- All-day availability on day 1 for `empCostly`. -/
def slotCostly : AvailabilitySlot := ⟨"e-costly", 1, 8 * 60, 20 * 60, true⟩

/-- All-day availability on day 1 for `empCheap`. -/
def slotCheap : AvailabilitySlot := ⟨"e-cheap", 1, 8 * 60, 20 * 60, true⟩

/-- An employee with hourly rate 30 working the overnight window. -/
def empNight : Employee := ⟨"e-night", "N", "O", 30, []⟩

/-- The spec's overnight example: day 1, start 22:00, end 06:00,
available. -/
def overnightSlot : AvailabilitySlot := ⟨"e-night", 1, 22 * 60, 6 * 60, true⟩

/-- An employee with hourly rate 60 (one worked hour costs 60). -/
def emp60 : Employee := ⟨"e60", "X", "Y", 60, []⟩

/-- An employee with hourly rate 50. -/
def emp50 : Employee := ⟨"e50", "X", "Y", 50, []⟩

/-- First shift of the budget example: one hour at rate 60 against budget
100 from a fresh state. -/
def demoShift1 : Shift × GenM := create_shift uuidA 0 100 gen0 ("e60") 0 9 [9] emp60

/-- Second shift of the budget example, taken from the state left by
`demoShift1`. -/
def demoShift2 : Shift × GenM :=
  create_shift uuidA 0 100 demoShift1.2 ("e60") 0 14 [14] emp60

/-- An 8-hour contiguous block (hours 9..16) for `emp50`, as an
assignment map. -/
def demo8Assignments : List (String × List (ℕ × ℕ)) :=
  [("e50", (List.range' 9 8).map (fun h => (0, h)))]

/-- The merger run on the 8-hour block. -/
def demo8 : List Shift × GenM :=
  merge_hours_to_shifts uuidA 0 100000 gen0 demo8Assignments [emp50]

/-- A forecast cache holding one confident entry: date 2025-01-06,
hour 10, demand 25, confidence 0.9. -/
def demoCache : ForecastCache := [("2025-W02", [("2025-01-06", [(10, (25, 9 / 10))])])]

/-- One employee available on day 0 between 06:00 and 07:00. -/
def demoEmployees : List Employee := [⟨"e1", "A", "B", 50, []⟩]

/-- Availability for `demoEmployees`. -/
def demoAvailability : List AvailabilitySlot := [⟨"e1", 0, 6 * 60, 7 * 60, true⟩]

/-- First of two consecutive runs on one generator (ordinal day 739259 as
"today"). -/
def runA : (List Shift × List Alert) × GenM :=
  generate_schedule uuidA 739259 1000 1 gen0 demoEmployees demoAvailability none

/-- Second run on the same generator: it starts from the state `runA`
left behind, so the `uuid.uuid4()` stream continues where `runA`
stopped. -/
def runB : (List Shift × List Alert) × GenM :=
  generate_schedule uuidA 739259 1000 1 runA.2 demoEmployees demoAvailability none

/-- A `load_forecast` call that finds no rows: it appends a
`missing_forecast` alert to the generator state. -/
def loadedState : Bool × GenM × ForecastCache :=
  load_forecast gen0 [] ("biz") ("2025-W02") (Except.ok [])

/-- A `generate_schedule` run made after `loadedState`, on the same
generator. -/
def c9run : (List Shift × List Alert) × GenM :=
  generate_schedule uuidA 739259 1000 1 loadedState.2.1 [] [] none

/-! ## Theorems

### C1: the gap-tolerant merge -/

/-- Every element of a strictly increasing list is at most its last
element (with default 0 for the empty list). -/
theorem le_getLastD_of_sorted :
    ∀ (l : List ℕ), l.Pairwise (· < ·) → ∀ x ∈ l, x ≤ l.getLast?.getD 0 := by
  intro l
  induction l with
  | nil => simp
  | cons a t ih =>
    intro hp x hx
    cases t with
    | nil =>
        simp only [List.mem_singleton] at hx
        subst hx
        simp
    | cons b t2 =>
        rw [List.getLast?_cons_cons]
        rcases List.mem_cons.mp hx with rfl | hx2
        · have hb : x < b := (List.pairwise_cons.mp hp).1 b (by simp)
          have hlast := ih (List.pairwise_cons.mp hp).2 b (by simp)
          omega
        · exact ih (List.pairwise_cons.mp hp).2 x hx2

/-- Folding the membership-checked append over a strictly increasing list
of fresh elements is a plain append. -/
theorem foldl_fillStep_append :
    ∀ (fs : List ℕ) (c : List ℕ), (∀ f ∈ fs, ∀ x ∈ c, x < f) →
      fs.Pairwise (· < ·) →
      fs.foldl (fun c2 fh => if fh ∈ c2 then c2 else c2 ++ [fh]) c = c ++ fs := by
  intro fs
  induction fs with
  | nil => simp
  | cons f fs2 ih =>
    intro c hlt hp
    have hf : f ∉ c := fun hmem => lt_irrefl f (hlt f (by simp) f hmem)
    rw [List.foldl_cons]
    simp only [if_neg hf]
    rw [ih (c ++ [f]) ?_ (List.Pairwise.of_cons hp)]
    · simp
    · intro f2 hf2 x hx
      rcases List.mem_append.mp hx with hxc | hxf
      · exact hlt f2 (List.mem_cons_of_mem f hf2) x hxc
      · have : x = f := by simpa using hxf
        subst this
        exact (List.pairwise_cons.mp hp).1 f2 hf2

/-- On a strictly increasing current range, the gap-filling loop appends
exactly the missing hours `last+1 .. h`. -/
theorem fillGap_eq_append (cur : List ℕ) (h : ℕ) (hs : cur.Pairwise (· < ·)) :
    fillGap cur h =
      cur ++ List.range' (cur.getLast?.getD 0 + 1)
        (h + 1 - (cur.getLast?.getD 0 + 1)) := by
  unfold fillGap
  apply foldl_fillStep_append
  · intro f hf x hx
    have h1 : cur.getLast?.getD 0 + 1 ≤ f := by
      rcases List.mem_range'.mp hf with ⟨i, hi, rfl⟩
      omega
    have h2 := le_getLastD_of_sorted cur hs x hx
    omega
  · exact List.pairwise_lt_range' _ _

/-- C1: on a strictly increasing current block, the merge loop of
`merge_hours_to_shifts` extends the block exactly when the next assigned
hour is at most the block's last hour plus 4, synthesizing every
intervening hour, and otherwise closes the block and starts a new one; in
particular hours [9,10,14] merge into the single block [9..14] and hours
[9,10,16] produce exactly the two blocks [9,10] and [16]. -/
theorem mergeLoop_gap_tolerant_step (cur : List ℕ) (hs : cur.Pairwise (· < ·)) :
    (∀ (ranges : List (List ℕ)) (t : List ℕ) (h : ℕ),
      mergeLoop (h :: t) ranges cur =
        if h ≤ cur.getLast?.getD 0 + 4 then
          mergeLoop t ranges
            (cur ++ List.range' (cur.getLast?.getD 0 + 1)
              (h + 1 - (cur.getLast?.getD 0 + 1)))
        else mergeLoop t (ranges ++ [cur]) [h]) ∧
    mergeRanges [9, 10, 14] = [[9, 10, 11, 12, 13, 14]] ∧
    mergeRanges [9, 10, 16] = [[9, 10], [16]] := by
  refine ⟨?_, by decide, by decide⟩
  intro ranges t h
  by_cases hc : h ≤ cur.getLast?.getD 0 + 4
  · simp only [mergeLoop, if_pos hc, fillGap_eq_append cur h hs]
  · simp only [mergeLoop, if_neg hc]

/-- Witness for C1 at the concrete block [9,10] and next hour 14. -/
theorem mergeLoop_gap_tolerant_step_witness :
    mergeLoop [14] [] [9, 10] =
      (if 14 ≤ ([9, 10] : List ℕ).getLast?.getD 0 + 4 then
        mergeLoop [] [] ([9, 10] ++ List.range' (([9, 10] : List ℕ).getLast?.getD 0 + 1)
          (14 + 1 - (([9, 10] : List ℕ).getLast?.getD 0 + 1)))
      else mergeLoop [] ([] ++ [[9, 10]]) [14]) :=
  (mergeLoop_gap_tolerant_step [9, 10] (by decide)).1 [] [] 14

/-! ### C8: no strict-contiguity mode exists -/

/-- C8 counterexample: the merger bridges the non-contiguous step from 9
to 11 (synthesizing hour 10) instead of breaking the block; since
`merge_hours_to_shifts` takes no mode argument, no selectable
strict-contiguity behavior exists. -/
theorem mergeRanges_no_strict_mode :
    mergeRanges [9, 11] = [[9, 10, 11]] ∧ mergeRanges [9, 11] ≠ [[9], [11]] := by
  decide

/-- C8 amended: the merger supports only the gap-tolerant policy; for any
two assigned hours of one day it always bridges a gap of at most 3 hours
(next ≤ previous + 4), synthesizing the gap hours, and never breaks a
block at a merely non-contiguous step. -/
theorem mergeRanges_pair_gap_policy (a b : ℕ) :
    mergeRanges [a, b] =
      if b ≤ a + 4 then [a :: List.range' (a + 1) (b - a)] else [[a], [b]] := by
  have hpair : ([a] : List ℕ).Pairwise (· < ·) := by simp
  by_cases hc : b ≤ a + 4
  · rw [if_pos hc]
    simp only [mergeRanges, mergeLoop, fillGap_eq_append [a] b hpair]
    simp [hc, Nat.succ_sub_succ]
  · rw [if_neg hc]
    simp only [mergeRanges, mergeLoop]
    simp [hc]

/-! ### C10: bad assignment entries are skipped -/

/-- C10: an assignment entry whose hour list is empty or whose employee id
is not in the employee list contributes nothing: the merger's result
(shifts, alerts and running cost) is the same as without the entry. -/
theorem merge_skips_bad_entries (u : ℕ → String) (today : ℤ) (b : ℚ) (g : GenM)
    (xs ys : List (String × List (ℕ × ℕ))) (eid : String) (hours : List (ℕ × ℕ))
    (employees : List Employee)
    (hbad : hours = [] ∨ empLookup employees eid = none) :
    merge_hours_to_shifts u today b g (xs ++ (eid, hours) :: ys) employees =
      merge_hours_to_shifts u today b g (xs ++ ys) employees := by
  unfold merge_hours_to_shifts
  rw [List.foldl_append, List.foldl_append, List.foldl_cons]
  congr 1
  rcases hbad with h | h
  · simp [processEntry, h]
  · by_cases he : hours = []
    · simp [processEntry, he]
    · simp [processEntry, he, h]

/-- Witness for C10: an entry for the unknown id "ghost" is skipped. -/
theorem merge_skips_bad_entries_witness :
    merge_hours_to_shifts uuidA 0 100 gen0
        ([("e50", [(0, 9)])] ++ ("ghost", [(0, 10)]) :: []) [emp50] =
      merge_hours_to_shifts uuidA 0 100 gen0 ([("e50", [(0, 9)])] ++ []) [emp50] :=
  merge_skips_bad_entries uuidA 0 100 gen0 [("e50", [(0, 9)])] [] ("ghost")
    [(0, 10)] [emp50] (Or.inr (by decide))

/-! ### C3: the budget alert of `_create_shift` -/

set_option maxRecDepth 100000 in
unseal Rat.add Rat.mul Rat.inv Rat.sub in
/-- C3: `_create_shift` appends a `budget_exceeded` critical alert exactly
when the running total before the shift plus the shift's cost strictly
exceeds the weekly budget; the shift is returned and the running total
grows by the shift's cost in either case.  With budget 100 and two
sequential shifts costing 60 each, the alert fires exactly on the
second. -/
theorem create_shift_budget_alert (u : ℕ → String) (today : ℤ) (weekly_budget : ℚ)
    (g : GenM) (emp_id : String) (day start_hour : ℕ) (hours : List ℕ)
    (employee : Employee) :
    ((create_shift u today weekly_budget g emp_id day start_hour hours employee).2.alerts =
      g.alerts ++
        (if weekly_budget < g.current_cost +
            (create_shift u today weekly_budget g emp_id day start_hour hours employee).1.total_cost
         then [budgetExceededAlert g.current_cost
            (create_shift u today weekly_budget g emp_id day start_hour hours employee).1.total_cost
            weekly_budget]
         else [])) ∧
    ((create_shift u today weekly_budget g emp_id day start_hour hours employee).2.current_cost =
      g.current_cost +
        (create_shift u today weekly_budget g emp_id day start_hour hours employee).1.total_cost) ∧
    demoShift1.1.total_cost = 60 ∧ demoShift1.2.alerts = [] ∧
    demoShift2.1.total_cost = 60 ∧ demoShift2.2.current_cost = 120 ∧
    demoShift2.2.alerts = [budgetExceededAlert 60 60 100] := by
  refine ⟨?_, ?_, ?cost1, ?al1, ?cost2, ?tot2, ?al2⟩
  case cost1 => decide
  case al1 => decide
  case cost2 => decide
  case tot2 => decide
  case al2 => decide
  · simp only [create_shift]
    split
    · simp
    · simp
  · simp only [create_shift]
    split
    · simp
    · simp

/-! ### C6: break minutes and cost of every produced shift -/

/-- A property preserved by every step of a left fold holds of its
result. -/
theorem foldl_preserves {α : Type u} {β : Type v} (P : β → Prop) (f : β → α → β)
    (hf : ∀ b a, P b → P (f b a)) :
    ∀ (l : List α) (b : β), P b → P (l.foldl f b) := by
  intro l
  induction l with
  | nil => intro b hb; simpa using hb
  | cons x t ih => intro b hb; exact ih (f b x) (hf b x hb)

/-- Every shift accumulated by the range loop satisfies the break/cost
invariant with `n` the length of its hour block. -/
theorem processRanges_shiftInvariant (u : ℕ → String) (today : ℤ) (b : ℚ)
    (emp_id : String) (day : ℕ) (employee : Employee) (ranges : List (List ℕ))
    (acc : List Shift × GenM) (hacc : ∀ s ∈ acc.1, shiftInvariant s) :
    ∀ s ∈ (processRanges u today b emp_id day employee ranges acc).1,
      shiftInvariant s := by
  unfold processRanges
  refine foldl_preserves
    (fun ac : List Shift × GenM => ∀ s ∈ ac.1, shiftInvariant s) _ ?_ ranges acc hacc
  intro ac r hP s hs
  by_cases hr : 1 ≤ r.length
  · rw [if_pos hr] at hs
    rcases List.mem_append.mp hs with h | h
    · exact hP s h
    · have hs1 : s = (create_shift u today b ac.2 emp_id day (r.headD 0) r employee).1 := by
        simpa using h
      subst hs1
      exact ⟨r.length, hr, rfl, rfl⟩
  · rw [if_neg hr] at hs
    exact hP s hs

/-- Every shift accumulated by one assignment entry satisfies the
break/cost invariant. -/
theorem processEntry_shiftInvariant (u : ℕ → String) (today : ℤ) (b : ℚ)
    (employees : List Employee) (acc : List Shift × GenM)
    (entry : String × List (ℕ × ℕ)) (hacc : ∀ s ∈ acc.1, shiftInvariant s) :
    ∀ s ∈ (processEntry u today b employees acc entry).1, shiftInvariant s := by
  unfold processEntry
  by_cases he : entry.2 = []
  · rw [if_pos he]; exact hacc
  · rw [if_neg he]
    cases hemp : empLookup employees entry.1 with
    | none => exact hacc
    | some employee =>
        refine foldl_preserves
          (fun ac : List Shift × GenM => ∀ s ∈ ac.1, shiftInvariant s) _ ?_ _ acc hacc
        intro ac dayEntry hP
        show ∀ s ∈ (if dayEntry.2.mergeSort natLE = [] then ac
          else processRanges u today b entry.1 dayEntry.1 employee
            (mergeRanges (dayEntry.2.mergeSort natLE)) ac).1, shiftInvariant s
        by_cases hd : dayEntry.2.mergeSort natLE = []
        · rw [if_pos hd]
          exact hP
        · rw [if_neg hd]
          exact processRanges_shiftInvariant u today b entry.1 dayEntry.1 employee
            (mergeRanges (dayEntry.2.mergeSort natLE)) ac hP

set_option maxRecDepth 1000000 in
unseal List.merge List.mergeSort Rat.add Rat.mul Rat.inv Rat.sub in
/-- C6: a created shift's break minutes are `max(0, (n-4)*15)` and its
cost is `(n*60 - break)/60 * hourly_rate`, with `n` the number of hours of
its block; every shift produced by `merge_hours_to_shifts` satisfies this
invariant for some block length `n ≥ 1`; an 8-hour contiguous block at
rate 50 yields break 60 and cost 350. -/
theorem merger_break_cost_invariant (u : ℕ → String) (today : ℤ) (b : ℚ) (g : GenM)
    (assignments : List (String × List (ℕ × ℕ))) (employees : List Employee)
    (emp_id : String) (day start_hour : ℕ) (hours : List ℕ) (employee : Employee) :
    ((create_shift u today b g emp_id day start_hour hours employee).1.break_minutes =
        max 0 (((hours.length : ℤ) - 4) * 15) ∧
      (create_shift u today b g emp_id day start_hour hours employee).1.total_cost =
        (((hours.length : ℤ) * 60 -
          (create_shift u today b g emp_id day start_hour hours employee).1.break_minutes : ℤ) : ℚ) /
          60 * (create_shift u today b g emp_id day start_hour hours employee).1.hourly_rate) ∧
    (∀ s ∈ (merge_hours_to_shifts u today b g assignments employees).1, shiftInvariant s) ∧
    demo8.1.map (fun s => (s.break_minutes, s.total_cost)) = [(60, 350)] := by
  refine ⟨⟨rfl, rfl⟩, ?_, by decide⟩
  unfold merge_hours_to_shifts
  refine foldl_preserves
    (fun ac : List Shift × GenM => ∀ s ∈ ac.1, shiftInvariant s) _ ?_ assignments ([], g)
    (by simp)
  intro ac entry hP
  exact processEntry_shiftInvariant u today b employees ac entry hP

/-! ### C5: overnight availability windows -/

unseal List.merge List.mergeSort in
/-- C5: for a slot whose start time is strictly after its end time, the
window test of `pick_employees_greedy` accepts a target hour iff its
zero-minute time-of-day is at or after the start or at or before the end;
with the slot (day 1, 22:00–06:00, available), the employee is eligible at
hour 2 of day 1. -/
theorem hourFits_overnight (slot : AvailabilitySlot) (target_hour : ℕ)
    (hov : slot.end_time < slot.start_time) :
    (hourFits slot target_hour = true ↔
      slot.start_time ≤ target_hour * 60 ∨ target_hour * 60 ≤ slot.end_time) ∧
    (pick_employees_greedy gen0 [empNight] [overnightSlot] 1 1 2).1 = [empNight] := by
  constructor
  · unfold hourFits
    rw [if_neg (not_le.mpr hov)]
    simp
  · decide

/-- Witness for C5 at the overnight slot 22:00–06:00 and hour 2. -/
theorem hourFits_overnight_witness :
    (hourFits overnightSlot 2 = true ↔
      overnightSlot.start_time ≤ 2 * 60 ∨ 2 * 60 ≤ overnightSlot.end_time) ∧
    (pick_employees_greedy gen0 [empNight] [overnightSlot] 1 1 2).1 = [empNight] :=
  hourFits_overnight overnightSlot 2 (by decide)

/-! ### C4: forecast-driven staffing truncates, it does not round -/

unseal Rat.add Rat.mul Rat.inv Rat.sub in
/-- C4 counterexample: with default settings and a cached entry of demand
25, confidence 0.9 (above the 0.7 threshold), the code computes
`max(1, int(25/15)) = 1` capped at 5, while the claimed
`clamp(round(25/15), 1, 5)` is 2. -/
theorem forecast_staffing_round_counterexample :
    (demand_to_staff_with_forecast 1 gen0 demoCache ("2025-01-06") 10 none).1 = 1 ∧
    requiredStaffSpecRound 25 (mergedSettings none) = 2 ∧
    (demand_to_staff_with_forecast 1 gen0 demoCache ("2025-01-06") 10 none).1 ≠
      requiredStaffSpecRound 25 (mergedSettings none) := by
  refine ⟨by decide, ?_, ?_⟩
  · have h : round ((25 : ℚ) / 15) = 2 := by
      norm_num [round_eq]
    simp [requiredStaffSpecRound, mergedSettings, default_settings, h]
  · intro hcon
    have h1 : (demand_to_staff_with_forecast 1 gen0 demoCache ("2025-01-06") 10 none).1 = 1 := by
      decide
    have h2 : round ((25 : ℚ) / 15) = 2 := by
      norm_num [round_eq]
    rw [h1] at hcon
    simp [requiredStaffSpecRound, mergedSettings, default_settings, h2] at hcon

/-- C4 amended: when a cached forecast entry for the target date and hour
exists with confidence at or above the configured threshold, the result is
`clamp(trunc(demand / demand_per_staff), min_staff_per_hour,
max_staff_per_hour)`, the ratio being truncated toward zero (Python
`int()`), not rounded to nearest. -/
theorem demand_to_staff_with_forecast_confident (min_staff_gen : ℕ) (g : GenM)
    (cache : ForecastCache) (target_date : String) (hour : ℕ)
    (settings : Option ConvSettingsPatch) (w : String)
    (hs : List (ℕ × HourData)) (demand confidence : ℚ)
    (hw : findWeek cache target_date = some w) (hw0 : w ≠ "")
    (hwd : (lookupA cache w).bind (fun wd => lookupA wd target_date) = some hs)
    (hh : lookupHour hs hour = some (demand, confidence))
    (hc : (mergedSettings settings).confidence_threshold ≤ confidence) :
    demand_to_staff_with_forecast min_staff_gen g cache target_date hour settings =
      (min (mergedSettings settings).max_staff_per_hour
        (max (mergedSettings settings).min_staff_per_hour
          (truncQ (demand / (mergedSettings settings).demand_per_staff))), g) := by
  unfold demand_to_staff_with_forecast
  simp only [hw, hwd, hh, if_neg hw0, if_pos hc]

unseal Rat.add Rat.mul Rat.inv Rat.sub in
/-- Witness for the amended C4 on the concrete cache entry (demand 25,
confidence 0.9). -/
theorem demand_to_staff_with_forecast_confident_witness :
    demand_to_staff_with_forecast 1 gen0 demoCache ("2025-01-06") 10 none =
      (min (mergedSettings none).max_staff_per_hour
        (max (mergedSettings none).min_staff_per_hour
          (truncQ (25 / (mergedSettings none).demand_per_staff))), gen0) :=
  demand_to_staff_with_forecast_confident 1 gen0 demoCache ("2025-01-06") 10 none
    ("2025-W02") [(10, (25, 9 / 10))] 25 (9 / 10) (by decide) (by decide) (by decide)
    (by decide) (by decide)

/-! ### C2: greedy selection is a stable cheapest-first sort -/

/-- `pairLE` is transitive. -/
theorem pairLE_trans : ∀ (a b c : Employee × ℚ),
    pairLE a b = true → pairLE b c = true → pairLE a c = true := by
  intro a b c hab hbc
  simp only [pairLE, decide_eq_true_eq] at hab hbc ⊢
  exact le_trans hab hbc

/-- `pairLE` is total. -/
theorem pairLE_total : ∀ (a b : Employee × ℚ), (pairLE a b || pairLE b a) = true := by
  intro a b
  simp only [pairLE, Bool.or_eq_true, decide_eq_true_eq]
  exact le_total a.2 b.2

/-- Every pair collected by `suitableEmployees` stores the employee's own
hourly rate as its second component. -/
theorem suitable_snd (es : List Employee) (ss : List AvailabilitySlot) (d h : ℕ) :
    ∀ p ∈ suitableEmployees es ss d h, p.2 = p.1.hourly_rate := by
  unfold suitableEmployees
  refine foldl_preserves
    (fun acc : List (Employee × ℚ) => ∀ p ∈ acc, p.2 = p.1.hourly_rate) _ ?_ es []
    (by simp)
  intro acc emp hP p hp
  cases hfind : ss.find? (slotMatches emp d) with
  | none =>
      rw [hfind] at hp
      exact hP p hp
  | some slot =>
      rw [hfind] at hp
      by_cases hfits : hourFits slot h = true
      · simp only [hfits, if_true] at hp
        rcases List.mem_append.mp hp with h1 | h2
        · exact hP p h1
        · have hpe : p = (emp, emp.hourly_rate) := by simpa using h2
          subst hpe
          rfl
      · simp only [hfits, if_false] at hp
        exact hP p hp

/-- The stability order of the stable sort: `enumLE pairLE` holds exactly
when the rate is smaller, or the rates tie and the input position is not
later. -/
theorem enumLE_pairLE_iff (x y : ℕ × (Employee × ℚ)) :
    List.enumLE pairLE x y = true ↔
      (x.2.2 < y.2.2 ∨ (x.2.2 = y.2.2 ∧ x.1 ≤ y.1)) := by
  simp only [List.enumLE, pairLE]
  by_cases h1 : x.2.2 ≤ y.2.2
  · by_cases h2 : y.2.2 ≤ x.2.2
    · have heq : x.2.2 = y.2.2 := le_antisymm h1 h2
      simp [h1, h2, heq]
    · have hlt : x.2.2 < y.2.2 := lt_of_le_not_le h1 h2
      simp [h1, h2, hlt]
  · have hnlt : ¬ x.2.2 < y.2.2 := fun hlt => h1 hlt.le
    have hne : ¬ x.2.2 = y.2.2 := fun he => h1 (le_of_eq he)
    simp [h1, hnlt, hne]

unseal List.merge List.mergeSort in
/-- C2: `pick_employees_greedy` returns the eligible employees stably
sorted by ascending hourly rate — its result is the stable sort of the
eligible list (ties broken by input position, as the sort of the
position-enumerated list shows) cut to `min required (number eligible)`;
the result is sorted by rate and has that length; with eligible rates 20
and 10 and required 1, only the rate-10 employee is returned. -/
theorem pick_employees_greedy_spec (g : GenM) (emps : List Employee)
    (slots : List AvailabilitySlot) (req day hour : ℕ) :
    ((pick_employees_greedy g emps slots req day hour).1.length =
      min req (suitableEmployees emps slots day hour).length) ∧
    ((pick_employees_greedy g emps slots req day hour).1 =
      ((((suitableEmployees emps slots day hour).enum.mergeSort
          (List.enumLE pairLE)).map (fun p => p.2)).take
        (min req (suitableEmployees emps slots day hour).length)).map (fun p => p.1)) ∧
    ((pick_employees_greedy g emps slots req day hour).1.Pairwise
      (fun a b => a.hourly_rate ≤ b.hourly_rate)) ∧
    (((suitableEmployees emps slots day hour).enum.mergeSort
        (List.enumLE pairLE)).Pairwise
      (fun x y => x.2.2 < y.2.2 ∨ (x.2.2 = y.2.2 ∧ x.1 ≤ y.1))) ∧
    ((pick_employees_greedy gen0 [empCostly, empCheap] [slotCostly, slotCheap] 1 1 10).1 =
      [empCheap]) := by
  have hsort := List.sorted_mergeSort pairLE_trans pairLE_total
    (suitableEmployees emps slots day hour)
  have hsnd := suitable_snd emps slots day hour
  refine ⟨?_, ?_, ?_, ?_, by decide⟩
  · simp only [pick_employees_greedy, List.length_map, List.length_take,
      List.length_mergeSort]
    omega
  · simp only [pick_employees_greedy]
    rw [← List.mergeSort_enum]
    simp [List.length_map, List.length_mergeSort, List.enum_length]
  · simp only [pick_employees_greedy]
    refine (List.pairwise_map).mpr ?_
    refine List.Pairwise.sublist (List.take_sublist _ _) ?_
    refine List.Pairwise.imp_of_mem ?_ hsort
    intro a b ha hb hab
    have h1 := hsnd a (List.mem_mergeSort.mp ha)
    have h2 := hsnd b (List.mem_mergeSort.mp hb)
    simp only [pairLE, decide_eq_true_eq] at hab
    rw [← h1, ← h2]
    exact hab
  · have hs2 := List.sorted_mergeSort (List.enumLE_trans pairLE_trans)
      (List.enumLE_total pairLE_total) ((suitableEmployees emps slots day hour).enum)
    exact hs2.imp (fun h => (enumLE_pairLE_iff _ _).mp h)

/-! ### C7: determinism up to the uuid-generated ids -/

/-- A binary relation preserved by each step of two left folds over the
same list is preserved by the folds. -/
theorem foldl_rel {α : Type u} {β : Type v} (R : β → β → Prop) (f1 f2 : β → α → β)
    (hf : ∀ b c a, R b c → R (f1 b a) (f2 c a)) :
    ∀ (l : List α) (b c : β), R b c → R (l.foldl f1 b) (l.foldl f2 c) := by
  intro l
  induction l with
  | nil => intro b c h; simpa using h
  | cons x t ih => intro b c h; exact ih (f1 b x) (f2 c x) (hf b c x h)

/-- `pick_employees_greedy` leaves cost and uuid position unchanged,
appends an alert suffix that does not depend on the incoming state, and
its selection does not depend on the incoming state. -/
theorem pick_state_effects (g : GenM) (emps : List Employee)
    (slots : List AvailabilitySlot) (req day hour : ℕ) :
    ((pick_employees_greedy g emps slots req day hour).2.current_cost =
      g.current_cost) ∧
    ((pick_employees_greedy g emps slots req day hour).2.uuidCounter =
      g.uuidCounter) ∧
    ((pick_employees_greedy g emps slots req day hour).2.alerts =
      g.alerts ++ (pick_employees_greedy gen0 emps slots req day hour).2.alerts) ∧
    ((pick_employees_greedy g emps slots req day hour).1 =
      (pick_employees_greedy gen0 emps slots req day hour).1) := by
  by_cases hc : (suitableEmployees emps slots day hour).length < req
  · simp [pick_employees_greedy, hc, gen0]
  · simp [pick_employees_greedy, hc, gen0]

/-- The assignment phase is insensitive to the uuid position: starting
from equal costs and alerts it produces the same assignments, cost and
alerts, and passes the uuid position through. -/
theorem assignmentPhase_counter_indep (m : ℕ) (e : List Employee)
    (a : List AvailabilitySlot) (f : Option (List (String × ℚ)))
    (A : List (String × List (ℕ × ℕ))) (c : ℚ) (al : List Alert) (k1 k2 : ℕ) :
    (assignmentPhase m e a f (A, ⟨c, al, k1⟩)).1 =
      (assignmentPhase m e a f (A, ⟨c, al, k2⟩)).1 ∧
    (assignmentPhase m e a f (A, ⟨c, al, k1⟩)).2.current_cost =
      (assignmentPhase m e a f (A, ⟨c, al, k2⟩)).2.current_cost ∧
    (assignmentPhase m e a f (A, ⟨c, al, k1⟩)).2.alerts =
      (assignmentPhase m e a f (A, ⟨c, al, k2⟩)).2.alerts ∧
    (assignmentPhase m e a f (A, ⟨c, al, k1⟩)).2.uuidCounter = k1 ∧
    (assignmentPhase m e a f (A, ⟨c, al, k2⟩)).2.uuidCounter = k2 := by
  unfold assignmentPhase
  refine foldl_rel
    (fun p q : List (String × List (ℕ × ℕ)) × GenM =>
      p.1 = q.1 ∧ p.2.current_cost = q.2.current_cost ∧ p.2.alerts = q.2.alerts ∧
        p.2.uuidCounter = k1 ∧ q.2.uuidCounter = k2) _ _ ?_ _ _ _
    ⟨rfl, rfl, rfl, rfl, rfl⟩
  intro st1 st2 day hR
  refine foldl_rel
    (fun p q : List (String × List (ℕ × ℕ)) × GenM =>
      p.1 = q.1 ∧ p.2.current_cost = q.2.current_cost ∧ p.2.alerts = q.2.alerts ∧
        p.2.uuidCounter = k1 ∧ q.2.uuidCounter = k2) _ _ ?_ _ _ _ hR
  intro b2 c3 hour hR2
  obtain ⟨hA, hcost, hal, hk1, hk2⟩ := hR2
  by_cases hreq : demand_to_staff m hour day f = 0
  · simpa [hreq] using ⟨hA, hcost, hal, hk1, hk2⟩
  · have p1 := pick_state_effects b2.2 e a (demand_to_staff m hour day f) day hour
    have p2 := pick_state_effects c3.2 e a (demand_to_staff m hour day f) day hour
    simp only [if_neg hreq]
    refine ⟨?_, ?_, ?_, ?_, ?_⟩
    · rw [p1.2.2.2, p2.2.2.2, hA]
    · rw [p1.1, p2.1, hcost]
    · rw [p1.2.2.1, p2.2.2.1, hal]
    · rw [p1.2.1, hk1]
    · rw [p2.2.1, hk2]

/-- `_create_shift` from states with equal cost and alerts produces the
same shift apart from its id, and equal new costs and alerts. -/
theorem create_shift_effects (u1 u2 : ℕ → String) (today : ℤ) (b : ℚ)
    (g1 g2 : GenM) (hcost : g1.current_cost = g2.current_cost)
    (hal : g1.alerts = g2.alerts) (emp_id : String) (day start_hour : ℕ)
    (hours : List ℕ) (employee : Employee) :
    (stripId (create_shift u1 today b g1 emp_id day start_hour hours employee).1 =
      stripId (create_shift u2 today b g2 emp_id day start_hour hours employee).1) ∧
    ((create_shift u1 today b g1 emp_id day start_hour hours employee).2.current_cost =
      (create_shift u2 today b g2 emp_id day start_hour hours employee).2.current_cost) ∧
    ((create_shift u1 today b g1 emp_id day start_hour hours employee).2.alerts =
      (create_shift u2 today b g2 emp_id day start_hour hours employee).2.alerts) := by
  simp only [create_shift, stripId, hcost, hal]
  split
  · simp [hcost, hal]
  · simp [hcost, hal]

/-- The range loop preserves the two-run relation: equal shift lists up to
ids, equal costs, equal alerts. -/
theorem processRanges_rel (u1 u2 : ℕ → String) (today : ℤ) (b : ℚ)
    (emp_id : String) (day : ℕ) (employee : Employee) (ranges : List (List ℕ))
    (acc1 acc2 : List Shift × GenM)
    (h : acc1.1.map stripId = acc2.1.map stripId ∧
      acc1.2.current_cost = acc2.2.current_cost ∧ acc1.2.alerts = acc2.2.alerts) :
    ((processRanges u1 today b emp_id day employee ranges acc1).1.map stripId =
      (processRanges u2 today b emp_id day employee ranges acc2).1.map stripId) ∧
    ((processRanges u1 today b emp_id day employee ranges acc1).2.current_cost =
      (processRanges u2 today b emp_id day employee ranges acc2).2.current_cost) ∧
    ((processRanges u1 today b emp_id day employee ranges acc1).2.alerts =
      (processRanges u2 today b emp_id day employee ranges acc2).2.alerts) := by
  unfold processRanges
  refine foldl_rel
    (fun p q : List Shift × GenM =>
      p.1.map stripId = q.1.map stripId ∧ p.2.current_cost = q.2.current_cost ∧
        p.2.alerts = q.2.alerts) _ _ ?_ ranges acc1 acc2 h
  intro p q r hR
  obtain ⟨hS, hcost, hal⟩ := hR
  by_cases hr : 1 ≤ r.length
  · simp only [if_pos hr]
    have ce := create_shift_effects u1 u2 today b p.2 q.2 hcost hal emp_id day
      (r.headD 0) r employee
    refine ⟨?_, ce.2.1, ce.2.2⟩
    simp only [List.map_append, List.map_cons, List.map_nil, hS, ce.1]
  · simp only [if_neg hr]
    exact ⟨hS, hcost, hal⟩

/-- One assignment entry preserves the two-run relation. -/
theorem processEntry_rel (u1 u2 : ℕ → String) (today : ℤ) (b : ℚ)
    (employees : List Employee) (acc1 acc2 : List Shift × GenM)
    (entry : String × List (ℕ × ℕ))
    (h : acc1.1.map stripId = acc2.1.map stripId ∧
      acc1.2.current_cost = acc2.2.current_cost ∧ acc1.2.alerts = acc2.2.alerts) :
    ((processEntry u1 today b employees acc1 entry).1.map stripId =
      (processEntry u2 today b employees acc2 entry).1.map stripId) ∧
    ((processEntry u1 today b employees acc1 entry).2.current_cost =
      (processEntry u2 today b employees acc2 entry).2.current_cost) ∧
    ((processEntry u1 today b employees acc1 entry).2.alerts =
      (processEntry u2 today b employees acc2 entry).2.alerts) := by
  unfold processEntry
  by_cases he : entry.2 = []
  · simp only [if_pos he]
    exact h
  · simp only [if_neg he]
    cases empLookup employees entry.1 with
    | none => exact h
    | some employee =>
        refine foldl_rel
          (fun p q : List Shift × GenM =>
            p.1.map stripId = q.1.map stripId ∧ p.2.current_cost = q.2.current_cost ∧
              p.2.alerts = q.2.alerts) _ _ ?_ _ acc1 acc2 h
        intro p q dayEntry hR
        show (fun p q : List Shift × GenM =>
            p.1.map stripId = q.1.map stripId ∧ p.2.current_cost = q.2.current_cost ∧
              p.2.alerts = q.2.alerts)
          (if dayEntry.2.mergeSort natLE = [] then p
            else processRanges u1 today b entry.1 dayEntry.1 employee
              (mergeRanges (dayEntry.2.mergeSort natLE)) p)
          (if dayEntry.2.mergeSort natLE = [] then q
            else processRanges u2 today b entry.1 dayEntry.1 employee
              (mergeRanges (dayEntry.2.mergeSort natLE)) q)
        by_cases hd : dayEntry.2.mergeSort natLE = []
        · rw [if_pos hd, if_pos hd]
          exact hR
        · rw [if_neg hd, if_neg hd]
          exact processRanges_rel u1 u2 today b entry.1 dayEntry.1 employee
            (mergeRanges (dayEntry.2.mergeSort natLE)) p q hR

/-- The merger from states with equal cost and alerts produces, for any
two uuid supplies, the same shifts up to ids and the same cost and
alerts. -/
theorem merge_rel (u1 u2 : ℕ → String) (today : ℤ) (b : ℚ) (gA gB : GenM)
    (A : List (String × List (ℕ × ℕ))) (employees : List Employee)
    (hcost : gA.current_cost = gB.current_cost) (hal : gA.alerts = gB.alerts) :
    ((merge_hours_to_shifts u1 today b gA A employees).1.map stripId =
      (merge_hours_to_shifts u2 today b gB A employees).1.map stripId) ∧
    ((merge_hours_to_shifts u1 today b gA A employees).2.current_cost =
      (merge_hours_to_shifts u2 today b gB A employees).2.current_cost) ∧
    ((merge_hours_to_shifts u1 today b gA A employees).2.alerts =
      (merge_hours_to_shifts u2 today b gB A employees).2.alerts) := by
  unfold merge_hours_to_shifts
  refine foldl_rel
    (fun p q : List Shift × GenM =>
      p.1.map stripId = q.1.map stripId ∧ p.2.current_cost = q.2.current_cost ∧
        p.2.alerts = q.2.alerts) _ _ ?_ A ([], gA) ([], gB) ⟨rfl, hcost, hal⟩
  intro p q entry hR
  exact processEntry_rel u1 u2 today b employees p q entry hR

/-- C7 amended: two `generate_schedule` runs on identical employees,
availability, budget, no forecast data and the same fixed "today" produce
identical alert sequences and shift sequences identical in every field
except the uuid-generated `id`, for any ambient uuid streams and any
incoming generator states. -/
theorem generate_schedule_deterministic_up_to_ids (u1 u2 : ℕ → String) (today : ℤ)
    (b : ℚ) (m : ℕ) (g1 g2 : GenM) (e : List Employee)
    (a : List AvailabilitySlot) :
    ((generate_schedule u1 today b m g1 e a none).1.1.map stripId =
      (generate_schedule u2 today b m g2 e a none).1.1.map stripId) ∧
    ((generate_schedule u1 today b m g1 e a none).1.2 =
      (generate_schedule u2 today b m g2 e a none).1.2) := by
  simp only [generate_schedule]
  obtain ⟨hA, hcost, hal, _, _⟩ := assignmentPhase_counter_indep m e a none
    (initAssignments e) 0 [] g1.uuidCounter g2.uuidCounter
  rw [hA]
  have hm := merge_rel u1 u2 today b
    (assignmentPhase m e a none (initAssignments e, ⟨0, [], g1.uuidCounter⟩)).2
    (assignmentPhase m e a none (initAssignments e, ⟨0, [], g2.uuidCounter⟩)).2
    (assignmentPhase m e a none (initAssignments e, ⟨0, [], g2.uuidCounter⟩)).1
    e hcost hal
  exact ⟨hm.1, hm.2.2⟩

set_option maxHeartbeats 2000000 in
set_option maxRecDepth 1000000 in
unseal List.merge List.mergeSort Rat.add Rat.mul Rat.inv Rat.sub in
/-- C7 counterexample: running `generate_schedule` a second time on the
same generator (so the ambient `uuid.uuid4()` stream has advanced) yields
a different shift sequence — the `id` fields differ — even though all
other shift fields and the alert sequence coincide. -/
theorem generate_schedule_runs_not_identical :
    runA.1.1 ≠ runB.1.1 ∧ runA.1.1.map stripId = runB.1.1.map stripId ∧
    runA.1.2 = runB.1.2 := by
  refine ⟨by decide, by decide, by decide⟩

/-! ### C9: alert accumulation and the reset at the start of a run -/

/-- If every fold step extends the projected alert list, the fold extends
it. -/
theorem foldl_alerts_grow {α : Type u} {β : Type v} (π : β → List Alert)
    (f : β → α → β) (hf : ∀ b x, π b <+: π (f b x)) :
    ∀ (l : List α) (b : β), π b <+: π (l.foldl f b) := by
  intro l
  induction l with
  | nil => intro b; exact List.prefix_refl _
  | cons x t ih => intro b; exact (hf b x).trans (ih (f b x))

/-- `pick_employees_greedy` only appends alerts. -/
theorem pick_alerts_grow (g : GenM) (emps : List Employee)
    (slots : List AvailabilitySlot) (req day hour : ℕ) :
    g.alerts <+: (pick_employees_greedy g emps slots req day hour).2.alerts := by
  rw [(pick_state_effects g emps slots req day hour).2.2.1]
  exact List.prefix_append _ _

/-- `_create_shift` only appends alerts. -/
theorem create_alerts_grow (u : ℕ → String) (today : ℤ) (b : ℚ) (g : GenM)
    (emp_id : String) (day start_hour : ℕ) (hours : List ℕ) (employee : Employee) :
    g.alerts <+: (create_shift u today b g emp_id day start_hour hours employee).2.alerts := by
  simp only [create_shift]
  split
  · exact List.prefix_append _ _
  · exact List.prefix_refl _

/-- The range loop only appends alerts. -/
theorem processRanges_alerts_grow (u : ℕ → String) (today : ℤ) (b : ℚ)
    (emp_id : String) (day : ℕ) (employee : Employee) (ranges : List (List ℕ))
    (acc : List Shift × GenM) :
    acc.2.alerts <+:
      (processRanges u today b emp_id day employee ranges acc).2.alerts := by
  unfold processRanges
  refine foldl_alerts_grow (fun p : List Shift × GenM => p.2.alerts) _ ?_ ranges acc
  intro p r
  by_cases hr : 1 ≤ r.length
  · simp only [if_pos hr]
    exact create_alerts_grow u today b p.2 emp_id day (r.headD 0) r employee
  · simp only [if_neg hr]
    exact List.prefix_refl _

/-- One assignment entry only appends alerts. -/
theorem processEntry_alerts_grow (u : ℕ → String) (today : ℤ) (b : ℚ)
    (employees : List Employee) (acc : List Shift × GenM)
    (entry : String × List (ℕ × ℕ)) :
    acc.2.alerts <+: (processEntry u today b employees acc entry).2.alerts := by
  unfold processEntry
  by_cases he : entry.2 = []
  · simp only [if_pos he]
    exact List.prefix_refl _
  · simp only [if_neg he]
    cases empLookup employees entry.1 with
    | none => exact List.prefix_refl _
    | some employee =>
        refine foldl_alerts_grow (fun p : List Shift × GenM => p.2.alerts) _ ?_ _ acc
        intro p dayEntry
        show p.2.alerts <+:
          (if dayEntry.2.mergeSort natLE = [] then p
            else processRanges u today b entry.1 dayEntry.1 employee
              (mergeRanges (dayEntry.2.mergeSort natLE)) p).2.alerts
        by_cases hd : dayEntry.2.mergeSort natLE = []
        · rw [if_pos hd]
        · rw [if_neg hd]
          exact processRanges_alerts_grow u today b entry.1 dayEntry.1 employee
            (mergeRanges (dayEntry.2.mergeSort natLE)) p

/-- C9 amended: within one run every operation only appends alerts —
`pick_employees_greedy`, `_create_shift`, `merge_hours_to_shifts` and
`load_forecast` all extend the alert list they receive — but
`generate_schedule` clears the generator's alert list (and running cost)
at its start, so alerts emitted before it (e.g. the forecast-loading
alerts of `load_forecast`) are discarded and are not in the returned
alert list. -/
theorem alerts_accumulate_within_run (u : ℕ → String) (today : ℤ) (b : ℚ) (m : ℕ)
    (e : List Employee) (a : List AvailabilitySlot)
    (f : Option (List (String × ℚ))) :
    (∀ (g : GenM) (emps : List Employee) (slots : List AvailabilitySlot)
      (req day hour : ℕ),
      g.alerts <+: (pick_employees_greedy g emps slots req day hour).2.alerts) ∧
    (∀ (g : GenM) (emp_id : String) (day start_hour : ℕ) (hours : List ℕ)
      (employee : Employee),
      g.alerts <+:
        (create_shift u today b g emp_id day start_hour hours employee).2.alerts) ∧
    (∀ (g : GenM) (A : List (String × List (ℕ × ℕ))) (employees : List Employee),
      g.alerts <+: (merge_hours_to_shifts u today b g A employees).2.alerts) ∧
    (∀ (g : GenM) (cache : ForecastCache) (bid w : String)
      (db : Except String (List ForecastRow)),
      g.alerts <+: (load_forecast g cache bid w db).2.1.alerts) ∧
    (∀ (g : GenM) (c : ℚ) (al : List Alert),
      generate_schedule u today b m g e a f =
        generate_schedule u today b m ⟨c, al, g.uuidCounter⟩ e a f) := by
  refine ⟨pick_alerts_grow, create_alerts_grow u today b, ?_, ?_, ?_⟩
  · intro g A employees
    unfold merge_hours_to_shifts
    refine foldl_alerts_grow (fun p : List Shift × GenM => p.2.alerts) _ ?_ A ([], g)
    intro p entry
    exact processEntry_alerts_grow u today b employees p entry
  · intro g cache bid w db
    unfold load_forecast
    cases db with
    | error err => exact List.prefix_append _ _
    | ok rows =>
        by_cases hrows : rows = []
        · simp only [if_pos hrows]
          exact List.prefix_append _ _
        · simp only [if_neg hrows]
          exact List.prefix_append _ _
  · intro g c al
    rfl

set_option maxRecDepth 1000000 in
unseal List.merge List.mergeSort Rat.add Rat.mul Rat.inv Rat.sub in
/-- C9 counterexample: a `missing_forecast` alert appended by
`load_forecast` before the assignment phase is wiped by the reset at the
start of `generate_schedule`: the returned alert list is nonempty yet
contains no `missing_forecast` alert. -/
theorem forecast_alert_discarded :
    loadedState.2.1.alerts.map (fun al => al.type) = ["missing_forecast"] ∧
    c9run.1.2 ≠ [] ∧
    (∀ al ∈ c9run.1.2, al.type ≠ "missing_forecast") := by
  refine ⟨by decide, by decide, by decide⟩

end ShiftMind
